import Mathlib

/-!
# Verification of the eve-packager packing engine (`src/ship_splitter.py`)

Shallow embedding of the core packing engine of `ship_splitter.py`:
stack splitting with limited split counts, score-ordered first-fit
packing, the move/swap local-improvement pass, and per-package
consolidation.  Numbers (volumes, values, limits, score weights) are
embedded as exact rationals `ℚ`; counts and split budgets as `ℕ`.
Python's float floor division `a // b` becomes `⌊a / b⌋`;
`math.ceil(a / b)` becomes `⌈a / b⌉₊`.

The UI layer (streamlit widgets, TSV parsing, rendering) is an external
collaborator and is not part of the embedding; the configuration values
it supplies become the fields of `Config`.
-/

/-- One parsed inventory row: `Type`, `Count`, `Volume` (per unit),
`Value` (per unit). -/
structure ItemStack where
  type : String
  count : ℕ
  volume : ℚ
  value : ℚ
deriving DecidableEq, Repr

/-- The configuration values read from the UI widgets: `volume_limit`,
`max_package_value` (0 = no limit), `max_splits`, and the score weights
`alpha`, `beta`. -/
structure Config where
  volume_limit : ℚ
  max_package_value : ℚ
  max_splits : ℕ
  alpha : ℚ
  beta : ℚ
deriving DecidableEq, Repr

/-- One expanded row (a chunk of a stack), as appended to
`expanded_rows`: the original type, the chunk's count, the per-unit
volume/value and the precomputed `TotalVolume`/`TotalValue`. -/
structure Chunk where
  type : String
  count : ℕ
  volume : ℚ
  value : ℚ
  totalVolume : ℚ
  totalValue : ℚ
deriving DecidableEq, Repr

/-- A package dict of the packing loop: the list `types` of placed
chunks and the incrementally maintained totals. -/
structure Package where
  types : List Chunk
  total_volume : ℚ
  total_value : ℚ
deriving DecidableEq, Repr

/-! ## StackSplitter (lines 88-117) -/

/-- `max_units_by_value = max_package_value // value if value > 0 and
max_package_value > 0 else count`. -/
def max_units_by_value (cfg : Config) (s : ItemStack) : ℤ :=
  if 0 < s.value ∧ 0 < cfg.max_package_value then ⌊cfg.max_package_value / s.value⌋
  else (s.count : ℤ)

/-- `max_units_by_volume = volume_limit // volume if volume > 0 else count`. -/
def max_units_by_volume (cfg : Config) (s : ItemStack) : ℤ :=
  if 0 < s.volume then ⌊cfg.volume_limit / s.volume⌋ else (s.count : ℤ)

/-- Python's `x or count` on a numeric `x`: `x` is replaced by `count`
exactly when it is zero (falsy). -/
def orCount (x : ℤ) (count : ℕ) : ℤ :=
  if x = 0 then (count : ℤ) else x

/-- `chunk_size_limit = max(int(min(max_units_by_value or count,
max_units_by_volume or count)), 1)` (lines 97-100). -/
def chunk_size_limit (cfg : Config) (s : ItemStack) : ℕ :=
  (max (min (orCount (max_units_by_value cfg s) s.count)
            (orCount (max_units_by_volume cfg s) s.count)) 1).toNat

/-- `needed_splits = math.ceil(count / chunk_size_limit)` (line 102). -/
def needed_splits (cfg : Config) (s : ItemStack) : ℕ :=
  ⌈(s.count : ℚ) / (chunk_size_limit cfg s : ℚ)⌉₊

/-- `splits = min(needed_splits, max_splits)` (line 103). -/
def splits (cfg : Config) (s : ItemStack) : ℕ :=
  min (needed_splits cfg s) cfg.max_splits

/-- The expansion loop body for one row (lines 105-117):
`base_chunk_size = count // splits`, `remainder = count % splits`, and
chunk `i` gets one extra unit iff `i < remainder`. -/
def splitStack (cfg : Config) (s : ItemStack) : List Chunk :=
  (List.range (splits cfg s)).map fun i =>
    let current_chunk := s.count / splits cfg s +
      (if i < s.count % splits cfg s then 1 else 0)
    { type := s.type
      count := current_chunk
      volume := s.volume
      value := s.value
      totalVolume := (current_chunk : ℚ) * s.volume
      totalValue := (current_chunk : ℚ) * s.value }

/-- The whole `expanded_rows` loop over the parsed rows (lines 86-117). -/
def expand (cfg : Config) : List ItemStack → List Chunk
  | [] => []
  | s :: ss => splitStack cfg s ++ expand cfg ss

/-! ## Scorer and sort (lines 121-124) -/

/-- `Score = alpha * TotalValue / (TotalVolume + 1) + beta * TotalVolume`
(line 122). -/
def score (cfg : Config) (c : Chunk) : ℚ :=
  cfg.alpha * c.totalValue / (c.totalVolume + 1) + cfg.beta * c.totalVolume

/-- Insert a chunk into a list already sorted by decreasing score,
keeping it before later chunks of equal score (stable). -/
def insertDesc (cfg : Config) (c : Chunk) : List Chunk → List Chunk
  | [] => [c]
  | x :: xs => if score cfg x ≤ score cfg c then c :: x :: xs else x :: insertDesc cfg c xs

/-- `df_expanded.sort_values(by='Score', ascending=False)` (line 124),
embedded as a stable insertion sort by decreasing score. -/
def sortChunks (cfg : Config) (cs : List Chunk) : List Chunk :=
  cs.foldr (insertDesc cfg) []

/-! ## BinPacker: first-fit packing loop (lines 127-144) -/

/-- The fit test of line 132-133: the package's running totals plus the
item stay within the volume limit, and within the value limit unless
`max_package_value == 0`. -/
def fits (cfg : Config) (pkg : Package) (item : Chunk) : Prop :=
  pkg.total_volume + item.totalVolume ≤ cfg.volume_limit ∧
    (cfg.max_package_value = 0 ∨
      pkg.total_value + item.totalValue ≤ cfg.max_package_value)

instance (cfg : Config) (pkg : Package) (item : Chunk) : Decidable (fits cfg pkg item) := by
  unfold fits; infer_instance

/-- Appending an item to a package (lines 134-136). -/
def addChunk (pkg : Package) (item : Chunk) : Package :=
  { types := pkg.types ++ [item]
    total_volume := pkg.total_volume + item.totalVolume
    total_value := pkg.total_value + item.totalValue }

/-- Opening a new package holding only `item` (lines 140-144). -/
def newPackage (item : Chunk) : Package :=
  { types := [item]
    total_volume := item.totalVolume
    total_value := item.totalValue }

/-- One pass of the inner `for pkg in packages` loop for a single item:
place it in the first package it fits (in creation order), else append a
new package at the end (lines 129-144). -/
def insertChunk (cfg : Config) : List Package → Chunk → List Package
  | [], item => [newPackage item]
  | pkg :: rest, item =>
    if fits cfg pkg item then addChunk pkg item :: rest
    else pkg :: insertChunk cfg rest item

/-- The whole packing loop: fold `insertChunk` over the sorted items,
starting from no packages. -/
def pack (cfg : Config) (items : List Chunk) : List Package :=
  items.foldl (insertChunk cfg) []

/-! ## LocalImprover (lines 146-235) -/

/-- `can_move(item, to_pkg, volume_limit, max_value_limit)` (lines
147-152): the destination package can absorb the item within both
limits. -/
def can_move (item : Chunk) (to_pkg : Package) (volume_limit max_value_limit : ℚ) : Bool :=
  decide (to_pkg.total_volume + item.totalVolume ≤ volume_limit) &&
    (decide (max_value_limit = 0) ||
      decide (to_pkg.total_value + item.totalValue ≤ max_value_limit))

/-- The move acceptance test of lines 172-175: the leftover volume of
the two packages after moving `item` from `pkg_i` to `pkg_j` is
strictly smaller than before. -/
def moveGain (pkg_i pkg_j : Package) (item : Chunk) (volume_limit : ℚ) : Prop :=
  (volume_limit - (pkg_i.total_volume - item.totalVolume)) +
      (volume_limit - (pkg_j.total_volume + item.totalVolume)) <
    (volume_limit - pkg_i.total_volume) + (volume_limit - pkg_j.total_volume)

instance (pkg_i pkg_j : Package) (item : Chunk) (volume_limit : ℚ) :
    Decidable (moveGain pkg_i pkg_j item volume_limit) := by
  unfold moveGain; infer_instance

/-- First element of a list satisfying `p`, with its index. -/
def findFirstIdx {α : Type} (p : α → Bool) : List α → Option (ℕ × α)
  | [] => none
  | x :: xs =>
    if p x then some (0, x)
    else (findFirstIdx p xs).map fun r => (r.1 + 1, r.2)

/-- First pair `(x, y)` with `x` from the first list and `y` from the
second satisfying `p x y`, scanning `x` in the outer loop, with both
indices. -/
def findFirstPair {α β : Type} (p : α → β → Bool) : List α → List β → Option (ℕ × α × ℕ × β)
  | [], _ => none
  | x :: xs, ys =>
    match findFirstIdx (p x) ys with
    | some (j, y) => some (0, x, j, y)
    | none => (findFirstPair p xs ys).map fun r => (r.1 + 1, r.2)

/-- The body of the move loops for one ordered pair `(i, j)` of package
indices (lines 163-190): skip `i == j`, find the first item of
`packages[i]` that `can_move` to `packages[j]` with a strict leftover
decrease, and perform the move (append to `pkg_j`, delete from
`pkg_i`, update both running totals). -/
def tryMovePair (volume_limit max_value_limit : ℚ) (packages : List Package) (i j : ℕ) :
    Option (List Package) :=
  if i = j then none
  else
    match packages[i]?, packages[j]? with
    | some pkg_i, some pkg_j =>
      match findFirstIdx
          (fun item => can_move item pkg_j volume_limit max_value_limit &&
            decide (moveGain pkg_i pkg_j item volume_limit)) pkg_i.types with
      | some (item_idx, item) =>
        some ((packages.set j
          { types := pkg_j.types ++ [item]
            total_volume := pkg_j.total_volume + item.totalVolume
            total_value := pkg_j.total_value + item.totalValue }).set i
          { types := pkg_i.types.eraseIdx item_idx
            total_volume := pkg_i.total_volume - item.totalVolume
            total_value := pkg_i.total_value - item.totalValue })
      | none => none
    | _, _ => none

/-- The double loop over `(i, j)` of the move phase, returning the
updated package list of the first accepted move, if any. -/
def tryMove (volume_limit max_value_limit : ℚ) (packages : List Package) :
    Option (List Package) :=
  (List.range packages.length).findSome? fun i =>
    (List.range packages.length).findSome? fun j =>
      tryMovePair volume_limit max_value_limit packages i j

/-- The swap acceptance test of lines 203-214: both packages stay
within the limits after exchanging `item_i` and `item_j`, and the
combined leftover volume strictly decreases. -/
def swapGain (pkg_i pkg_j : Package) (item_i item_j : Chunk) (volume_limit : ℚ) : Prop :=
  (volume_limit - (pkg_i.total_volume - item_i.totalVolume + item_j.totalVolume)) +
      (volume_limit - (pkg_j.total_volume - item_j.totalVolume + item_i.totalVolume)) <
    (volume_limit - pkg_i.total_volume) + (volume_limit - pkg_j.total_volume)

instance (pkg_i pkg_j : Package) (item_i item_j : Chunk) (volume_limit : ℚ) :
    Decidable (swapGain pkg_i pkg_j item_i item_j volume_limit) := by
  unfold swapGain; infer_instance

/-- The full acceptance condition of the swap phase (limits check of
lines 208-209 and leftover check of lines 211-214). -/
def swapAccept (pkg_i pkg_j : Package) (item_i item_j : Chunk)
    (volume_limit max_value_limit : ℚ) : Bool :=
  (decide (pkg_i.total_volume - item_i.totalVolume + item_j.totalVolume ≤ volume_limit) &&
    decide (pkg_j.total_volume - item_j.totalVolume + item_i.totalVolume ≤ volume_limit) &&
    (decide (max_value_limit = 0) ||
      (decide (pkg_i.total_value - item_i.totalValue + item_j.totalValue ≤ max_value_limit) &&
        decide (pkg_j.total_value - item_j.totalValue + item_i.totalValue ≤ max_value_limit)))) &&
  decide (swapGain pkg_i pkg_j item_i item_j volume_limit)

/-- The body of the swap loops for one pair `(i, j)` with `i < j`
(lines 196-229): find the first item pair passing `swapAccept` and
exchange the two items in place, updating all four running totals. -/
def trySwapPair (volume_limit max_value_limit : ℚ) (packages : List Package) (i j : ℕ) :
    Option (List Package) :=
  match packages[i]?, packages[j]? with
  | some pkg_i, some pkg_j =>
    match findFirstPair
        (fun item_i item_j => swapAccept pkg_i pkg_j item_i item_j volume_limit max_value_limit)
        pkg_i.types pkg_j.types with
    | some (idx_i, item_i, idx_j, item_j) =>
      some ((packages.set i
        { types := pkg_i.types.set idx_i item_j
          total_volume := pkg_i.total_volume - item_i.totalVolume + item_j.totalVolume
          total_value := pkg_i.total_value - item_i.totalValue + item_j.totalValue }).set j
        { types := pkg_j.types.set idx_j item_i
          total_volume := pkg_j.total_volume - item_j.totalVolume + item_i.totalVolume
          total_value := pkg_j.total_value - item_j.totalValue + item_i.totalValue })
    | none => none
  | _, _ => none

/-- The double loop of the swap phase: `i` over all packages, `j` over
the later packages. -/
def trySwap (volume_limit max_value_limit : ℚ) (packages : List Package) :
    Option (List Package) :=
  (List.range packages.length).findSome? fun i =>
    (List.range packages.length).findSome? fun j =>
      if i < j then trySwapPair volume_limit max_value_limit packages i j else none

/-- One iteration of the `while improved` loop (lines 158-229): try the
move phase first; only if it makes no move, try the swap phase.
Returns the updated package list if some move or swap was accepted. -/
def step (volume_limit max_value_limit : ℚ) (packages : List Package) :
    Option (List Package) :=
  match tryMove volume_limit max_value_limit packages with
  | some r => some r
  | none => trySwap volume_limit max_value_limit packages

/-- The bounded `while improved and iteration < max_iterations` loop:
up to `fuel` iterations, stopping as soon as an iteration accepts no
move or swap. -/
def localLoop (volume_limit max_value_limit : ℚ) : ℕ → List Package → List Package
  | 0, packages => packages
  | fuel + 1, packages =>
    match step volume_limit max_value_limit packages with
    | some packages2 => localLoop volume_limit max_value_limit fuel packages2
    | none => packages

/-- `local_improvement(packages, volume_limit, max_value_limit,
max_iterations)` (lines 154-233): the bounded improvement loop followed
by removal of empty packages (line 232). -/
def local_improvement (packages : List Package) (volume_limit max_value_limit : ℚ)
    (max_iterations : ℕ) : List Package :=
  (localLoop volume_limit max_value_limit max_iterations packages).filter
    fun pkg => !pkg.types.isEmpty

/-! ## Consolidator (lines 238-247) -/

/-- `consolidate_package` (lines 238-247): group the package's chunks
by `Type`, summing `Count` and taking the first `Volume`/`Value` of
each group, then recompute the group totals as `Count * Volume` and
`Count * Value`.  pandas' `groupby` sorts the group keys; we keep the
groups in first-occurrence order instead, which differs only in the
order of the returned rows (String comparison does not kernel-reduce,
and no claim depends on row order).  The input package is not
modified: the function builds a fresh list of rows. -/
def consolidate_package (package : Package) : List Chunk :=
  ((package.types.map Chunk.type).dedup).map fun t =>
    let group := package.types.filter fun c => c.type = t
    let cnt := (group.map Chunk.count).sum
    let vol := ((group.head?).map Chunk.volume).getD 0
    let val := ((group.head?).map Chunk.value).getD 0
    { type := t
      count := cnt
      volume := vol
      value := val
      totalVolume := (cnt : ℚ) * vol
      totalValue := (cnt : ℚ) * val }

/-! ## The full run -/

/-- A full packing run (the module top level): expand the stacks,
sort by decreasing score, pack first-fit, then
`local_improvement(packages, volume_limit, max_package_value,
max_iterations=10)` (line 235). -/
def run (cfg : Config) (rows : List ItemStack) : List Package :=
  local_improvement (pack cfg (sortChunks cfg (expand cfg rows)))
    cfg.volume_limit cfg.max_package_value 10

/-! ## Spec-side definitions used to state the claims -/

/-- The claim C4 / spec §4.1 step 1 formula for the volume cap:
`capByVolume = floor(volumeLimit / unitVolume)`, with the §4.1 edge
rule that a zero `unitVolume` leaves the dimension unconstrained
(`cap = count`). -/
def specCapByVolume (cfg : Config) (s : ItemStack) : ℕ :=
  if s.volume = 0 then s.count else ⌊cfg.volume_limit / s.volume⌋₊

/-- The claim C4 / spec §4.1 step 1 formula for the value cap:
`capByValue = maxStackValue > 0 ? floor(maxStackValue / unitValue) :
count`, with the §4.1 edge rule for a zero `unitValue`.  The code uses
the single `max_package_value` input both as the per-chunk value cap
and as the per-package value limit. -/
def specCapByValue (cfg : Config) (s : ItemStack) : ℕ :=
  if 0 < cfg.max_package_value then
    (if s.value = 0 then s.count else ⌊cfg.max_package_value / s.value⌋₊)
  else s.count

/-- The claim C4 / spec §4.1 step 2 formula:
`idealChunkSize = max(1, min(capByVolume, capByValue, count))`. -/
def specIdealChunkSize (cfg : Config) (s : ItemStack) : ℕ :=
  max 1 (min (min (specCapByVolume cfg s) (specCapByValue cfg s)) s.count)

/-- The value cap the code actually computes, written as a formula:
`floor(maxStackValue / unitValue)` when the value dimension is
constrained (`unitValue > 0`, `maxStackValue > 0`) and the floor is
nonzero; otherwise `count` (Python's `or count` fallback swallows a
zero cap). -/
def amendedCapByValue (cfg : Config) (s : ItemStack) : ℕ :=
  if 0 < s.value ∧ 0 < cfg.max_package_value ∧ ⌊cfg.max_package_value / s.value⌋₊ ≠ 0 then
    ⌊cfg.max_package_value / s.value⌋₊
  else s.count

/-- The volume cap the code actually computes, as a formula: the floor
when `unitVolume > 0` and the floor is nonzero, else `count`. -/
def amendedCapByVolume (cfg : Config) (s : ItemStack) : ℕ :=
  if 0 < s.volume ∧ ⌊cfg.volume_limit / s.volume⌋₊ ≠ 0 then ⌊cfg.volume_limit / s.volume⌋₊
  else s.count

/-- The amended chunk-size formula: `max(1, min(capByValue',
capByVolume'))` with the zero-cap-to-count fallbacks and no extra
clamp to `count`. -/
def amendedChunkSize (cfg : Config) (s : ItemStack) : ℕ :=
  max 1 (min (amendedCapByValue cfg s) (amendedCapByVolume cfg s))

/-- A package respects the configured capacities: `totalVolume ≤
volumeLimit`, and `totalValue ≤ valueLimit` whenever a value limit is
configured (`valueLimit > 0`). -/
def withinLimits (cfg : Config) (pkg : Package) : Prop :=
  pkg.total_volume ≤ cfg.volume_limit ∧
    (0 < cfg.max_package_value → pkg.total_value ≤ cfg.max_package_value)

/-- The §4.1 soft-limit exception: a package opened by one chunk that
on its own fails the fit test (its `totalVolume` exceeds the volume
limit, or its `totalValue` exceeds a configured value limit). -/
def oversizedSingleton (cfg : Config) (pkg : Package) : Prop :=
  ∃ c, pkg.types = [c] ∧ pkg.total_volume = c.totalVolume ∧
    pkg.total_value = c.totalValue ∧
    ¬ (c.totalVolume ≤ cfg.volume_limit ∧
        (cfg.max_package_value = 0 ∨ c.totalValue ≤ cfg.max_package_value))

/-- All chunks held across a list of packages, in package order. -/
def allChunks : List Package → List Chunk
  | [] => []
  | pkg :: rest => pkg.types ++ allChunks rest

/-- Total unit count of item type `t` over a list of chunks. -/
def countOf (t : String) (cs : List Chunk) : ℕ :=
  (cs.map fun c => if c.type = t then c.count else 0).sum

/-- Total unit count of item type `t` over the input rows. -/
def stackCount (t : String) (rows : List ItemStack) : ℕ :=
  (rows.map fun s => if s.type = t then s.count else 0).sum

/-- Sum of the leftover (residual) volume `volumeLimit - totalVolume`
over a list of packages. -/
def residualSum (volume_limit : ℚ) (ps : List Package) : ℚ :=
  (ps.map fun pkg => volume_limit - pkg.total_volume).sum

/-- Total volume held across a list of packages. -/
def volumeSum (ps : List Package) : ℚ :=
  (ps.map Package.total_volume).sum

/-- Total value held across a list of packages. -/
def valueSum (ps : List Package) : ℚ :=
  (ps.map Package.total_value).sum

/-! ## Concrete sample inputs (used by counterexamples and witnesses) -/

/-- The UI default configuration: volume limit 350000, value limit
10^10, at most 4 splits, alpha 1, beta 0.29. -/
def defaultConfig : Config :=
  { volume_limit := 350000
    max_package_value := 10000000000
    max_splits := 4
    alpha := 1
    beta := 29/100 }

/-- The default configuration with the value limit disabled. -/
def noValueLimitConfig : Config :=
  { volume_limit := 350000
    max_package_value := 0
    max_splits := 4
    alpha := 1
    beta := 29/100 }

/-- A configuration whose value cap (50) is below a single unit's
value of `capExampleRow`. -/
def capExampleConfig : Config :=
  { volume_limit := 350000
    max_package_value := 50
    max_splits := 4
    alpha := 1
    beta := 29/100 }

/-- The first default inventory row of the source. -/
def rookRow : ItemStack :=
  { type := "Rook", count := 16, volume := 10000, value := 3720706652 }

/-- A stack whose single-unit value (100) exceeds the value cap of
`capExampleConfig`. -/
def capExampleRow : ItemStack :=
  { type := "X", count := 10, volume := 1, value := 100 }

/-- A chunk of total volume 400000, above the 350000 volume limit. -/
def impelChunk : Chunk :=
  { type := "Impel", count := 20, volume := 20000, value := 0
    totalVolume := 400000, totalValue := 0 }

/-- A chunk of total volume 200000 (scenario of spec §8). -/
def chunkA : Chunk :=
  { type := "A", count := 10, volume := 20000, value := 0
    totalVolume := 200000, totalValue := 0 }

/-- A second chunk of total volume 200000. -/
def chunkB : Chunk :=
  { type := "B", count := 10, volume := 20000, value := 0
    totalVolume := 200000, totalValue := 0 }

/-- A well-formed package holding `chunkA`. -/
def pkgA : Package :=
  { types := [chunkA], total_volume := 200000, total_value := 0 }

/-- A well-formed package holding `chunkB`. -/
def pkgB : Package :=
  { types := [chunkB], total_volume := 200000, total_value := 0 }

/-! ## Lemmas about the StackSplitter -/

theorem chunk_size_limit_pos (cfg : Config) (s : ItemStack) : 1 ≤ chunk_size_limit cfg s := by
  unfold chunk_size_limit
  have h : (1 : ℤ) ≤ max (min (orCount (max_units_by_value cfg s) s.count)
      (orCount (max_units_by_volume cfg s) s.count)) 1 := le_max_right _ 1
  have := Int.toNat_le_toNat h
  simpa using this

theorem sum_range_base_ite (n b r : ℕ) :
    ((List.range n).map fun i => b + if i < r then 1 else 0).sum = n * b + min r n := by
  induction n with
  | zero => simp
  | succ n ih =>
    rw [List.range_succ, List.map_append, List.sum_append, ih]
    by_cases h : n < r
    · rw [min_eq_right (show n ≤ r from h.le), min_eq_right (show n + 1 ≤ r from h),
        Nat.succ_mul]
      simp [h]
      omega
    · rw [min_eq_left (show r ≤ n from Nat.le_of_not_lt h),
        min_eq_left (show r ≤ n + 1 from by omega), Nat.succ_mul]
      simp [h]
      ring

theorem splitStack_counts (cfg : Config) (s : ItemStack) :
    (splitStack cfg s).map Chunk.count =
      (List.range (splits cfg s)).map
        (fun i => s.count / splits cfg s + if i < s.count % splits cfg s then 1 else 0) := by
  simp [splitStack]

theorem splits_zero (cfg : Config) (s : ItemStack) (hc : s.count = 0) : splits cfg s = 0 := by
  simp [splits, needed_splits, hc]

theorem splits_pos (cfg : Config) (s : ItemStack) (h : 1 ≤ cfg.max_splits)
    (hc : 0 < s.count) : 0 < splits cfg s := by
  have hl : 0 < chunk_size_limit cfg s := chunk_size_limit_pos cfg s
  have hq : 0 < (s.count : ℚ) / (chunk_size_limit cfg s : ℚ) :=
    div_pos (by exact_mod_cast hc) (by exact_mod_cast hl)
  have : 1 ≤ needed_splits cfg s := Nat.one_le_ceil_iff.mpr hq
  exact lt_min_iff.mpr ⟨this, h⟩

theorem splitStack_sum (cfg : Config) (s : ItemStack) (h : 1 ≤ cfg.max_splits) :
    ((splitStack cfg s).map Chunk.count).sum = s.count := by
  rw [splitStack_counts, sum_range_base_ite]
  rcases Nat.eq_zero_or_pos s.count with hc | hc
  · simp [splits_zero cfg s hc, hc]
  · have hs : 0 < splits cfg s := splits_pos cfg s h hc
    have hmod : s.count % splits cfg s < splits cfg s := Nat.mod_lt _ hs
    rw [min_eq_left hmod.le]
    exact Nat.div_add_mod s.count (splits cfg s)

/-! ## C5: split count and even distribution -/

/-- **C5**: with `splits = min(ceil(count / chunkSizeLimit),
maxSplitsPerStack)`, the splitter emits exactly `splits` chunks, chunk
`i` carrying `count // splits` units plus one extra unit exactly when
`i < count % splits` (so the first `count % splits` chunks get
`base + 1` and the rest get `base`, sizes differing by at most 1), and
the chunk counts sum exactly to the stack's `count`. -/
theorem split_distribution (cfg : Config) (s : ItemStack) (h : 1 ≤ cfg.max_splits) :
    splits cfg s = min ⌈(s.count : ℚ) / (chunk_size_limit cfg s : ℚ)⌉₊ cfg.max_splits ∧
    (splitStack cfg s).length = splits cfg s ∧
    (splitStack cfg s).map Chunk.count =
      (List.range (splits cfg s)).map
        (fun i => s.count / splits cfg s + if i < s.count % splits cfg s then 1 else 0) ∧
    ((splitStack cfg s).map Chunk.count).sum = s.count :=
  ⟨rfl, by simp [splitStack], splitStack_counts cfg s, splitStack_sum cfg s h⟩

/-- Witness for C5: the default "Rook" row under the default
configuration, the split-budget hypothesis discharged by `decide`. -/
theorem split_distribution_witness :
    ((splitStack defaultConfig rookRow).map Chunk.count).sum = rookRow.count :=
  (split_distribution defaultConfig rookRow (by decide)).2.2.2

/-! ## C9: zero unit volume / unit value -/

/-- **C9**: a stack with `unitVolume = 0` (resp. `unitValue = 0`) makes
the corresponding cap fall into its guarded `else count` branch — the
dimension is unconstrained and the division is never taken, so no
division by zero occurs — and the splitter still completes with chunks
summing exactly to `count`. -/
theorem zero_dimension_unconstrained (cfg : Config) (s : ItemStack)
    (hm : 1 ≤ cfg.max_splits) :
    (s.volume = 0 → max_units_by_volume cfg s = (s.count : ℤ)) ∧
    (s.value = 0 → max_units_by_value cfg s = (s.count : ℤ)) ∧
    ((splitStack cfg s).map Chunk.count).sum = s.count := by
  refine ⟨fun h => ?_, fun h => ?_, splitStack_sum cfg s hm⟩
  · simp [max_units_by_volume, h]
  · simp [max_units_by_value, h]

/-- Witness for C9: a row with zero unit volume and zero unit value
under the default configuration. -/
theorem zero_dimension_unconstrained_witness :
    (max_units_by_volume defaultConfig
        { type := "Z", count := 7, volume := 0, value := 0 } = (7 : ℤ)) ∧
    ((splitStack defaultConfig
        { type := "Z", count := 7, volume := 0, value := 0 }).map Chunk.count).sum = 7 := by
  have h := zero_dimension_unconstrained defaultConfig
    { type := "Z", count := 7, volume := 0, value := 0 } (by decide)
  exact ⟨h.1 rfl, h.2.2⟩

/-! ## C4: the chunk-size formula -/

/-- **C4, counterexample**: the claim's formula
`max(1, min(capByVolume, capByValue, count))` disagrees with the code.
For a stack of 10 units of value 100 under a value cap of 50,
`capByValue = floor(50/100) = 0`, so the claimed chunk size is 1; but
the code's `or count` fallback replaces the zero value cap by `count`,
giving `chunk_size_limit = 10`. -/
theorem chunk_size_formula_counterexample :
    chunk_size_limit capExampleConfig capExampleRow = 10 ∧
    specIdealChunkSize capExampleConfig capExampleRow = 1 ∧
    (10 : ℕ) ≠ 1 := by
  have e1 : max_units_by_value capExampleConfig capExampleRow = 0 := by
    rw [max_units_by_value, if_pos (by decide)]
    show ⌊(50 : ℚ) / 100⌋ = 0
    rw [Int.floor_eq_iff] <;> norm_num
  have e2 : max_units_by_volume capExampleConfig capExampleRow = 350000 := by
    rw [max_units_by_volume, if_pos (by decide)]
    show ⌊(350000 : ℚ) / 1⌋ = 350000
    rw [Int.floor_eq_iff] <;> norm_num
  have e3 : specCapByValue capExampleConfig capExampleRow = 0 := by
    rw [specCapByValue, if_pos (by decide), if_neg (by decide)]
    exact Nat.floor_eq_zero.mpr (by show (50 : ℚ) / 100 < 1; norm_num)
  have e4 : specCapByVolume capExampleConfig capExampleRow = 350000 := by
    rw [specCapByVolume, if_neg (by decide)]
    show ⌊(350000 : ℚ) / 1⌋₊ = 350000
    rw [div_one]
    simp
  refine ⟨?_, ?_, by decide⟩
  · rw [chunk_size_limit, e1, e2]
    decide
  · rw [specIdealChunkSize, e3, e4]
    decide

/-- **C4, amended**: the code's chunk size limit equals
`max(1, min(capByValue', capByVolume'))`, where each cap is the
corresponding floor when its dimension is constrained and the floor is
nonzero, and falls back to `count` otherwise; there is no extra clamp
to `count`, and a zero cap yields `count` (not a chunk size of 1). -/
theorem chunk_size_amended_formula (cfg : Config) (s : ItemStack)
    (hL : 0 ≤ cfg.volume_limit) :
    chunk_size_limit cfg s = amendedChunkSize cfg s := by
  have hval : orCount (max_units_by_value cfg s) s.count = (amendedCapByValue cfg s : ℤ) := by
    unfold orCount max_units_by_value amendedCapByValue
    by_cases h : 0 < s.value ∧ 0 < cfg.max_package_value
    · have hq : 0 ≤ cfg.max_package_value / s.value := (div_pos h.2 h.1).le
      have hcast : ((⌊cfg.max_package_value / s.value⌋₊ : ℕ) : ℤ) =
          ⌊cfg.max_package_value / s.value⌋ := Int.natCast_floor_eq_floor hq
      rw [if_pos h]
      by_cases hz : ⌊cfg.max_package_value / s.value⌋ = 0
      · have hz2 : ⌊cfg.max_package_value / s.value⌋₊ = 0 := by omega
        rw [if_pos hz, if_neg (fun hc => hc.2.2 hz2)]
      · have hz2 : ⌊cfg.max_package_value / s.value⌋₊ ≠ 0 := by omega
        rw [if_neg hz, if_pos ⟨h.1, h.2, hz2⟩, hcast]
    · have hnc : ¬(0 < s.value ∧ 0 < cfg.max_package_value ∧
          ⌊cfg.max_package_value / s.value⌋₊ ≠ 0) := fun hc => h ⟨hc.1, hc.2.1⟩
      rw [if_neg h, if_neg hnc]
      split <;> rfl
  have hvol : orCount (max_units_by_volume cfg s) s.count = (amendedCapByVolume cfg s : ℤ) := by
    unfold orCount max_units_by_volume amendedCapByVolume
    by_cases h : 0 < s.volume
    · have hq : 0 ≤ cfg.volume_limit / s.volume := div_nonneg hL h.le
      have hcast : ((⌊cfg.volume_limit / s.volume⌋₊ : ℕ) : ℤ) =
          ⌊cfg.volume_limit / s.volume⌋ := Int.natCast_floor_eq_floor hq
      rw [if_pos h]
      by_cases hz : ⌊cfg.volume_limit / s.volume⌋ = 0
      · have hz2 : ⌊cfg.volume_limit / s.volume⌋₊ = 0 := by omega
        rw [if_pos hz, if_neg (fun hc => hc.2 hz2)]
      · have hz2 : ⌊cfg.volume_limit / s.volume⌋₊ ≠ 0 := by omega
        rw [if_neg hz, if_pos ⟨h, hz2⟩, hcast]
    · have hnc : ¬(0 < s.volume ∧ ⌊cfg.volume_limit / s.volume⌋₊ ≠ 0) :=
        fun hc => h hc.1
      rw [if_neg h, if_neg hnc]
      split <;> rfl
  unfold chunk_size_limit amendedChunkSize
  rw [hval, hvol]
  omega

/-- Witness for the amended C4: the counterexample inputs, the
nonnegative-volume-limit hypothesis discharged by `decide`. -/
theorem chunk_size_amended_formula_witness :
    chunk_size_limit capExampleConfig capExampleRow =
      amendedChunkSize capExampleConfig capExampleRow :=
  chunk_size_amended_formula capExampleConfig capExampleRow (by decide)

/-! ## Lemmas about counts, sorting and packing -/

theorem countOf_append (t : String) (l1 l2 : List Chunk) :
    countOf t (l1 ++ l2) = countOf t l1 + countOf t l2 := by
  simp [countOf]

theorem countOf_cons (t : String) (c : Chunk) (cs : List Chunk) :
    countOf t (c :: cs) = (if c.type = t then c.count else 0) + countOf t cs := by
  simp [countOf]

theorem countOf_perm (t : String) {l1 l2 : List Chunk} (h : l1.Perm l2) :
    countOf t l1 = countOf t l2 := by
  unfold countOf
  exact (h.map _).sum_eq

theorem insertDesc_perm (cfg : Config) (c : Chunk) (l : List Chunk) :
    (insertDesc cfg c l).Perm (c :: l) := by
  induction l with
  | nil => simp [insertDesc]
  | cons x xs ih =>
    rw [insertDesc]
    split
    · exact List.Perm.refl _
    · exact (ih.cons x).trans (List.Perm.swap c x xs)

theorem sortChunks_perm (cfg : Config) (cs : List Chunk) :
    (sortChunks cfg cs).Perm cs := by
  induction cs with
  | nil => simp [sortChunks]
  | cons x xs ih =>
    exact (insertDesc_perm cfg x (sortChunks cfg xs)).trans (ih.cons x)

theorem countOf_splitStack (cfg : Config) (s : ItemStack) (t : String)
    (h : 1 ≤ cfg.max_splits) :
    countOf t (splitStack cfg s) = if s.type = t then s.count else 0 := by
  by_cases ht : s.type = t
  · have : countOf t (splitStack cfg s) = ((splitStack cfg s).map Chunk.count).sum := by
      unfold countOf
      congr 1
      apply List.map_congr_left
      intro c hc
      have : c.type = s.type := by
        simp only [splitStack, List.mem_map] at hc
        obtain ⟨i, _, rfl⟩ := hc
        rfl
      simp [this, ht]
    rw [this, splitStack_sum cfg s h, if_pos ht]
  · have : countOf t (splitStack cfg s) = 0 := by
      unfold countOf
      rw [List.sum_eq_zero]
      intro x hx
      simp only [List.mem_map] at hx
      obtain ⟨c, hc, rfl⟩ := hx
      have : c.type = s.type := by
        simp only [splitStack, List.mem_map] at hc
        obtain ⟨i, _, rfl⟩ := hc
        rfl
      simp [this, ht]
    rw [this, if_neg ht]

theorem countOf_expand (cfg : Config) (rows : List ItemStack) (t : String)
    (h : 1 ≤ cfg.max_splits) :
    countOf t (expand cfg rows) = stackCount t rows := by
  induction rows with
  | nil => simp [expand, countOf, stackCount]
  | cons s ss ih =>
    rw [expand, countOf_append, countOf_splitStack cfg s t h, ih]
    simp [stackCount]

theorem countOf_insertChunk (cfg : Config) (ps : List Package) (c : Chunk) (t : String) :
    countOf t (allChunks (insertChunk cfg ps c)) =
      (if c.type = t then c.count else 0) + countOf t (allChunks ps) := by
  induction ps with
  | nil => simp [insertChunk, allChunks, newPackage, countOf]
  | cons p rest ih =>
    rw [insertChunk]
    split
    · simp only [allChunks, addChunk]
      rw [countOf_append, countOf_append, countOf_append, countOf_cons]
      simp only [countOf, List.map_nil, List.sum_nil]
      omega
    · rw [allChunks, allChunks, countOf_append, countOf_append, ih]
      omega

theorem countOf_pack_aux (cfg : Config) (t : String) (items : List Chunk)
    (acc : List Package) :
    countOf t (allChunks (items.foldl (insertChunk cfg) acc)) =
      countOf t (allChunks acc) + countOf t items := by
  induction items generalizing acc with
  | nil => simp [countOf]
  | cons c cs ih =>
    rw [List.foldl_cons, ih, countOf_insertChunk, countOf_cons]
    omega

theorem countOf_pack (cfg : Config) (t : String) (items : List Chunk) :
    countOf t (allChunks (pack cfg items)) = countOf t items := by
  rw [pack, countOf_pack_aux]
  simp [allChunks, countOf]

/-! ## The improvement acceptance tests are unsatisfiable

Moving an item between two packages, or exchanging two items, leaves
the sum of the two packages' volumes unchanged, so the strict
`leftover_after < leftover_before` comparison (in exact arithmetic)
never holds and no move or swap is ever accepted. -/

theorem not_moveGain (pkg_i pkg_j : Package) (item : Chunk) (volume_limit : ℚ) :
    ¬ moveGain pkg_i pkg_j item volume_limit := by
  unfold moveGain
  intro h
  linarith

theorem not_swapGain (pkg_i pkg_j : Package) (item_i item_j : Chunk) (volume_limit : ℚ) :
    ¬ swapGain pkg_i pkg_j item_i item_j volume_limit := by
  unfold swapGain
  intro h
  linarith

theorem findFirstIdx_eq_none {α : Type} (p : α → Bool) (l : List α)
    (h : ∀ a ∈ l, p a = false) : findFirstIdx p l = none := by
  induction l with
  | nil => rfl
  | cons x xs ih =>
    rw [findFirstIdx, if_neg (by simp [h x (by simp)]), ih fun a ha => h a (by simp [ha])]
    rfl

theorem findFirstPair_eq_none {α β : Type} (p : α → β → Bool) (xs : List α) (ys : List β)
    (h : ∀ a ∈ xs, ∀ b ∈ ys, p a b = false) : findFirstPair p xs ys = none := by
  induction xs with
  | nil => rfl
  | cons x l ih =>
    rw [findFirstPair, findFirstIdx_eq_none _ _ (h x (by simp)),
      ih fun a ha b hb => h a (by simp [ha]) b hb]
    rfl

theorem findSome?_eq_none {α β : Type} (f : α → Option β) (l : List α)
    (h : ∀ a ∈ l, f a = none) : l.findSome? f = none := by
  induction l with
  | nil => rfl
  | cons x xs ih =>
    rw [List.findSome?_cons, h x (by simp), ih fun a ha => h a (by simp [ha])]

theorem tryMovePair_eq_none (volume_limit max_value_limit : ℚ) (packages : List Package)
    (i j : ℕ) : tryMovePair volume_limit max_value_limit packages i j = none := by
  unfold tryMovePair
  split
  · rfl
  · split
    · rw [findFirstIdx_eq_none]
      intro item _
      simp [not_moveGain]
    · rfl

theorem tryMove_eq_none (volume_limit max_value_limit : ℚ) (packages : List Package) :
    tryMove volume_limit max_value_limit packages = none := by
  unfold tryMove
  exact findSome?_eq_none _ _ fun i _ =>
    findSome?_eq_none _ _ fun j _ => tryMovePair_eq_none _ _ _ i j

theorem trySwapPair_eq_none (volume_limit max_value_limit : ℚ) (packages : List Package)
    (i j : ℕ) : trySwapPair volume_limit max_value_limit packages i j = none := by
  unfold trySwapPair
  split
  · rw [findFirstPair_eq_none]
    intro item_i _ item_j _
    simp [swapAccept, not_swapGain]
  · rfl

theorem trySwap_eq_none (volume_limit max_value_limit : ℚ) (packages : List Package) :
    trySwap volume_limit max_value_limit packages = none := by
  unfold trySwap
  refine findSome?_eq_none _ _ fun i _ => findSome?_eq_none _ _ fun j _ => ?_
  split
  · exact trySwapPair_eq_none _ _ _ i j
  · rfl

theorem step_eq_none (volume_limit max_value_limit : ℚ) (packages : List Package) :
    step volume_limit max_value_limit packages = none := by
  unfold step
  rw [tryMove_eq_none, trySwap_eq_none]

theorem localLoop_id (volume_limit max_value_limit : ℚ) (fuel : ℕ)
    (packages : List Package) :
    localLoop volume_limit max_value_limit fuel packages = packages := by
  cases fuel with
  | zero => rfl
  | succ n => rw [localLoop, step_eq_none]

theorem local_improvement_eq_filter (packages : List Package)
    (volume_limit max_value_limit : ℚ) (max_iterations : ℕ) :
    local_improvement packages volume_limit max_value_limit max_iterations =
      packages.filter fun pkg => !pkg.types.isEmpty := by
  unfold local_improvement
  rw [localLoop_id]

/-! ## Lemmas about removing empty packages -/

theorem countOf_allChunks_filter (t : String) (ps : List Package) :
    countOf t (allChunks (ps.filter fun pkg => !pkg.types.isEmpty)) =
      countOf t (allChunks ps) := by
  induction ps with
  | nil => rfl
  | cons p rest ih =>
    by_cases hp : p.types.isEmpty
    · have he : p.types = [] := List.isEmpty_iff.mp hp
      rw [List.filter_cons]
      simp only [hp, Bool.not_true, Bool.false_eq_true, if_false]
      rw [ih, allChunks, he, List.nil_append]
    · rw [List.filter_cons]
      simp only [hp, Bool.not_false, if_true]
      rw [allChunks, allChunks, countOf_append, countOf_append, ih]

theorem residualSum_cons (L : ℚ) (p : Package) (ps : List Package) :
    residualSum L (p :: ps) = (L - p.total_volume) + residualSum L ps := by
  simp [residualSum]

theorem residualSum_filter (L : ℚ) (ps : List Package) (hL : 0 ≤ L)
    (hE : ∀ p ∈ ps, p.types = [] → p.total_volume = 0) :
    residualSum L (ps.filter fun pkg => !pkg.types.isEmpty) ≤ residualSum L ps := by
  induction ps with
  | nil => simp [residualSum]
  | cons p rest ih =>
    have ihr := ih fun q hq h2 => hE q (by simp [hq]) h2
    rw [residualSum_cons]
    by_cases hp : p.types.isEmpty
    · have h0 : p.total_volume = 0 := hE p (by simp) (List.isEmpty_iff.mp hp)
      rw [List.filter_cons]
      simp only [hp, Bool.not_true, Bool.false_eq_true, if_false]
      rw [h0]
      linarith
    · rw [List.filter_cons]
      simp only [hp, Bool.not_false, if_true]
      rw [residualSum_cons]
      linarith

theorem volumeSum_filter (ps : List Package)
    (hE : ∀ p ∈ ps, p.types = [] → p.total_volume = 0) :
    volumeSum (ps.filter fun pkg => !pkg.types.isEmpty) = volumeSum ps := by
  induction ps with
  | nil => rfl
  | cons p rest ih =>
    have ihr := ih fun q hq h2 => hE q (by simp [hq]) h2
    by_cases hp : p.types.isEmpty
    · have h0 : p.total_volume = 0 := hE p (by simp) (List.isEmpty_iff.mp hp)
      rw [List.filter_cons]
      simp only [hp, Bool.not_true, Bool.false_eq_true, if_false]
      rw [ihr]
      simp [volumeSum, h0]
    · rw [List.filter_cons]
      simp only [hp, Bool.not_false, if_true]
      simp [volumeSum] at ihr ⊢
      rw [ihr]

theorem valueSum_filter (ps : List Package)
    (hE : ∀ p ∈ ps, p.types = [] → p.total_value = 0) :
    valueSum (ps.filter fun pkg => !pkg.types.isEmpty) = valueSum ps := by
  induction ps with
  | nil => rfl
  | cons p rest ih =>
    have ihr := ih fun q hq h2 => hE q (by simp [hq]) h2
    by_cases hp : p.types.isEmpty
    · have h0 : p.total_value = 0 := hE p (by simp) (List.isEmpty_iff.mp hp)
      rw [List.filter_cons]
      simp only [hp, Bool.not_true, Bool.false_eq_true, if_false]
      rw [ihr]
      simp [valueSum, h0]
    · rw [List.filter_cons]
      simp only [hp, Bool.not_false, if_true]
      simp [valueSum] at ihr ⊢
      rw [ihr]

/-! ## C1: conservation of unit counts -/

/-- **C1**: for every input row list and configuration (with a split
budget of at least one) and every item type, the units held across all
packages after the full run (split, sort, pack, improve) equal the
input rows' units of that type: splitting distributes `count` exactly,
sorting permutes, packing places every chunk in exactly one package,
and the improvement pass accepts no move and only drops empty
packages. -/
theorem conservation_of_counts (cfg : Config) (rows : List ItemStack)
    (h : 1 ≤ cfg.max_splits) (t : String) :
    countOf t (allChunks (run cfg rows)) = stackCount t rows := by
  unfold run
  rw [local_improvement_eq_filter, countOf_allChunks_filter, countOf_pack,
    countOf_perm t (sortChunks_perm cfg (expand cfg rows)), countOf_expand cfg rows t h]

/-- Witness for C1: the default "Rook" row under the default
configuration. -/
theorem conservation_of_counts_witness :
    countOf "Rook" (allChunks (run defaultConfig [rookRow])) =
      stackCount "Rook" [rookRow] :=
  conservation_of_counts defaultConfig [rookRow] (by decide) "Rook"

/-! ## C10: the improvement pass is the identity -/

/-- **C10**: on any package list whose packages each hold at least one
chunk (as the first-fit packer produces), `local_improvement` returns
its input unchanged: moving or swapping chunks between two packages
leaves their combined volume — hence the combined leftover volume —
exactly equal to its prior value, so the strict-decrease acceptance
test never fires, and the final empty-package filter keeps every
package. -/
theorem local_improvement_identity (volume_limit max_value_limit : ℚ)
    (max_iterations : ℕ) (packages : List Package)
    (h : ∀ pkg ∈ packages, pkg.types ≠ []) :
    local_improvement packages volume_limit max_value_limit max_iterations = packages := by
  rw [local_improvement_eq_filter]
  exact List.filter_eq_self.mpr fun p hp => by simp [h p hp]

/-- Witness for C10: two nonempty packages under the default limits,
with ten iterations as in the source. -/
theorem local_improvement_identity_witness :
    local_improvement [pkgA, pkgB] 350000 0 10 = [pkgA, pkgB] :=
  local_improvement_identity 350000 0 10 [pkgA, pkgB] (by decide)

/-! ## C6: improvement monotonicity -/

/-- **C6**: the improvement pass never increases the total residual
volume summed across packages and never changes the volume or value
held across all packages (well-formed empty packages carry zero
totals, and removing one only sheds nonnegative residual); moreover
`step` never accepts any relocate or swap — the acceptance condition
is unsatisfiable in exact arithmetic — so every accepted move trivially
decreases the combined residual of its two packages and stays within
all limits. -/
theorem improver_monotonic (volume_limit max_value_limit : ℚ) (max_iterations : ℕ)
    (packages : List Package) (hL : 0 ≤ volume_limit)
    (hE : ∀ pkg ∈ packages, pkg.types = [] →
      pkg.total_volume = 0 ∧ pkg.total_value = 0) :
    residualSum volume_limit
        (local_improvement packages volume_limit max_value_limit max_iterations) ≤
      residualSum volume_limit packages ∧
    volumeSum (local_improvement packages volume_limit max_value_limit max_iterations) =
      volumeSum packages ∧
    valueSum (local_improvement packages volume_limit max_value_limit max_iterations) =
      valueSum packages ∧
    step volume_limit max_value_limit packages = none := by
  rw [local_improvement_eq_filter]
  exact ⟨residualSum_filter _ _ hL fun p hp h2 => (hE p hp h2).1,
    volumeSum_filter _ fun p hp h2 => (hE p hp h2).1,
    valueSum_filter _ fun p hp h2 => (hE p hp h2).2,
    step_eq_none _ _ _⟩

/-- Witness for C6: two well-formed packages under the default
limits. -/
theorem improver_monotonic_witness :
    residualSum 350000 (local_improvement [pkgA, pkgB] 350000 0 10) ≤
      residualSum 350000 [pkgA, pkgB] ∧
    volumeSum (local_improvement [pkgA, pkgB] 350000 0 10) = volumeSum [pkgA, pkgB] :=
  have h := improver_monotonic 350000 0 10 [pkgA, pkgB] (by decide) (by decide)
  ⟨h.1, h.2.1⟩

/-! ## C2: package capacity invariant -/

theorem insertChunk_pkgOk (cfg : Config) (ps : List Package) (c : Chunk)
    (h : ∀ p ∈ ps, withinLimits cfg p ∨ oversizedSingleton cfg p) :
    ∀ q ∈ insertChunk cfg ps c, withinLimits cfg q ∨ oversizedSingleton cfg q := by
  induction ps with
  | nil =>
    intro q hq
    simp only [insertChunk, List.mem_singleton] at hq
    subst hq
    by_cases hc : c.totalVolume ≤ cfg.volume_limit ∧
      (cfg.max_package_value = 0 ∨ c.totalValue ≤ cfg.max_package_value)
    · left
      refine ⟨hc.1, fun hv => ?_⟩
      rcases hc.2 with h0 | h2
      · exact absurd h0 (ne_of_gt hv)
      · exact h2
    · right
      exact ⟨c, rfl, rfl, rfl, hc⟩
  | cons p rest ih =>
    intro q hq
    by_cases hf : fits cfg p c
    · rw [insertChunk, if_pos hf] at hq
      rcases List.mem_cons.mp hq with rfl | hq2
      · left
        refine ⟨hf.1, fun hv => ?_⟩
        rcases hf.2 with h0 | h2
        · exact absurd h0 (ne_of_gt hv)
        · exact h2
      · exact h q (List.mem_cons_of_mem p hq2)
    · rw [insertChunk, if_neg hf] at hq
      rcases List.mem_cons.mp hq with rfl | hq2
      · exact h q (by simp)
      · exact ih (fun r hr => h r (List.mem_cons_of_mem p hr)) q hq2

theorem pack_pkgOk (cfg : Config) (items : List Chunk) :
    ∀ q ∈ pack cfg items, withinLimits cfg q ∨ oversizedSingleton cfg q := by
  unfold pack
  suffices h : ∀ acc : List Package,
      (∀ p ∈ acc, withinLimits cfg p ∨ oversizedSingleton cfg p) →
      ∀ q ∈ items.foldl (insertChunk cfg) acc,
        withinLimits cfg q ∨ oversizedSingleton cfg q by
    exact h [] (by simp)
  induction items with
  | nil => exact fun acc hacc => hacc
  | cons c cs ih =>
    intro acc hacc
    rw [List.foldl_cons]
    exact ih (insertChunk cfg acc c) (insertChunk_pkgOk cfg acc c hacc)

/-- **C2**: every package of a full run stays within the volume limit
and, when a value limit is configured, within the value limit — except
for the §4.1 soft-limit case: a package opened by a single chunk that
on its own fails the fit test (such a chunk can arise from split-count
clamping, and once over-limit the package never accepts further
chunks). -/
theorem package_capacity_invariant (cfg : Config) (rows : List ItemStack) :
    (run cfg rows).Forall fun pkg => withinLimits cfg pkg ∨ oversizedSingleton cfg pkg := by
  rw [List.forall_iff_forall_mem]
  intro p hp
  unfold run at hp
  rw [local_improvement_eq_filter] at hp
  exact pack_pkgOk cfg _ p (List.mem_filter.mp hp).1

/-! ## C3: oversized chunks are silently packed, not reported -/

/-- **C3, counterexample**: a chunk of total volume 400000 under a
350000 volume limit is not surfaced as any error: `pack` silently
places it in a fresh package whose total volume exceeds the limit.
The packing loop (lines 129-144) has no error channel at all — its
only behaviors are placing into an existing package or opening a new
one. -/
theorem unplaceable_chunk_counterexample :
    pack noValueLimitConfig [impelChunk] =
      [{ types := [impelChunk], total_volume := 400000, total_value := 0 }] ∧
    noValueLimitConfig.volume_limit < 400000 := by
  constructor
  · rfl
  · decide

/-- **C3, amended**: a chunk whose `totalVolume` exceeds the volume
limit fits no package (existing package volumes being nonnegative), so
the packer always opens a new over-limit package holding exactly that
chunk, appended after the existing packages; the chunk is never
dropped and packing of the remaining items continues, but no
error value is produced. -/
theorem oversized_chunk_opens_new_package (cfg : Config) (ps : List Package) (c : Chunk)
    (hps : ∀ p ∈ ps, 0 ≤ p.total_volume) (hc : cfg.volume_limit < c.totalVolume) :
    insertChunk cfg ps c = ps ++ [newPackage c] := by
  induction ps with
  | nil => rfl
  | cons p rest ih =>
    have hnf : ¬ fits cfg p c := by
      intro hf
      have h0 : 0 ≤ p.total_volume := hps p (by simp)
      have h1 := hf.1
      linarith
    rw [insertChunk, if_neg hnf, ih fun q hq => hps q (by simp [hq])]
    rfl

/-- Witness for the amended C3: the 400000-volume chunk inserted into
a one-package state under the 350000 limit. -/
theorem oversized_chunk_opens_new_package_witness :
    insertChunk noValueLimitConfig [pkgA] impelChunk = [pkgA] ++ [newPackage impelChunk] :=
  oversized_chunk_opens_new_package noValueLimitConfig [pkgA] impelChunk
    (by decide) (by decide)

/-! ## C7: first-fit placement -/

theorem insertChunk_first_fit (cfg : Config) (ps : List Package) (c : Chunk) :
    ∃ k, k ≤ ps.length ∧ (∀ p ∈ ps.take k, ¬ fits cfg p c) ∧
      ((∃ hk : k < ps.length, fits cfg (ps.get ⟨k, hk⟩) c ∧
          insertChunk cfg ps c = ps.set k (addChunk (ps.get ⟨k, hk⟩) c)) ∨
        (k = ps.length ∧ insertChunk cfg ps c = ps ++ [newPackage c])) := by
  induction ps with
  | nil => exact ⟨0, le_refl 0, by simp, Or.inr ⟨rfl, rfl⟩⟩
  | cons p rest ih =>
    by_cases hf : fits cfg p c
    · refine ⟨0, Nat.zero_le _, by simp, Or.inl ⟨Nat.succ_pos _, hf, ?_⟩⟩
      rw [insertChunk, if_pos hf]
      rfl
    · obtain ⟨k, hk_le, hk_nf, hk_rest⟩ := ih
      refine ⟨k + 1, Nat.succ_le_succ hk_le, ?_, ?_⟩
      · intro q hq
        rw [List.take_succ_cons] at hq
        rcases List.mem_cons.mp hq with rfl | hq2
        · exact hf
        · exact hk_nf q hq2
      · rcases hk_rest with ⟨hlt, hfit, heq⟩ | ⟨hlen, heq⟩
        · refine Or.inl ⟨Nat.succ_lt_succ hlt, hfit, ?_⟩
          rw [insertChunk, if_neg hf, heq]
          rfl
        · refine Or.inr ⟨by simp [hlen], ?_⟩
          rw [insertChunk, if_neg hf, heq]
          rfl

/-- **C7**: in the spec §8 scenario — two chunks of total volume
200000 each, volume limit 350000, no value limit, default weights —
the score-ordered first-fit packer puts the first chunk in package 1,
cannot fit the second there (400000 > 350000), and opens package 2,
yielding exactly two packages; and in general `insertChunk` places a
chunk in the first package, in creation order, that it fits, opening a
new package at the end exactly when no package fits. -/
theorem first_fit_two_packages :
    pack noValueLimitConfig (sortChunks noValueLimitConfig [chunkA, chunkB]) =
      [pkgA, pkgB] ∧
    ∀ (cfg : Config) (ps : List Package) (c : Chunk),
      ∃ k, k ≤ ps.length ∧ (∀ p ∈ ps.take k, ¬ fits cfg p c) ∧
        ((∃ hk : k < ps.length, fits cfg (ps.get ⟨k, hk⟩) c ∧
            insertChunk cfg ps c = ps.set k (addChunk (ps.get ⟨k, hk⟩) c)) ∨
          (k = ps.length ∧ insertChunk cfg ps c = ps ++ [newPackage c])) := by
  constructor
  · have hsort : sortChunks noValueLimitConfig [chunkA, chunkB] = [chunkA, chunkB] := by
      unfold sortChunks
      rw [List.foldr_cons, List.foldr_cons, List.foldr_nil]
      rw [insertDesc, insertDesc, if_pos (by norm_num [score, chunkA, chunkB])]
    rw [hsort]
    unfold pack
    rw [List.foldl_cons, List.foldl_cons, List.foldl_nil]
    have h1 : insertChunk noValueLimitConfig [] chunkA = [pkgA] := rfl
    rw [h1, insertChunk,
      if_neg (by norm_num [fits, pkgA, chunkA, chunkB, noValueLimitConfig])]
    rfl
  · exact insertChunk_first_fit

/-- Witness for C7: the general first-fit clause instantiated at the
empty package state and `chunkA`. -/
theorem first_fit_two_packages_witness :
    ∃ k, k ≤ ([] : List Package).length ∧
      (∀ p ∈ ([] : List Package).take k, ¬ fits noValueLimitConfig p chunkA) ∧
      ((∃ hk : k < ([] : List Package).length,
          fits noValueLimitConfig (([] : List Package).get ⟨k, hk⟩) chunkA ∧
          insertChunk noValueLimitConfig [] chunkA =
            ([] : List Package).set k
              (addChunk (([] : List Package).get ⟨k, hk⟩) chunkA)) ∨
        (k = ([] : List Package).length ∧
          insertChunk noValueLimitConfig [] chunkA = [] ++ [newPackage chunkA])) :=
  first_fit_two_packages.2 noValueLimitConfig [] chunkA

/-! ## C8: consolidation of an already-consolidated package -/

theorem filter_type_eq_of_pairwise (l : List Chunk) (c : Chunk) (hc : c ∈ l)
    (hnd : l.Pairwise fun a b => a.type ≠ b.type) :
    l.filter (fun x => x.type = c.type) = [c] := by
  induction l with
  | nil => cases hc
  | cons x xs ih =>
    rcases List.mem_cons.mp hc with rfl | hmem
    · rw [List.filter_cons, if_pos (by simp)]
      have hrest : xs.filter (fun y => y.type = c.type) = [] := by
        rw [List.filter_eq_nil_iff]
        intro a ha
        simp only [decide_eq_true_eq]
        exact fun he => (List.pairwise_cons.mp hnd).1 a ha he.symm
      rw [hrest]
    · have hx : x.type ≠ c.type := (List.pairwise_cons.mp hnd).1 c hmem
      rw [List.filter_cons, if_neg (by simp [hx])]
      exact ih hmem (List.pairwise_cons.mp hnd).2

theorem find?_of_filter_singleton {α : Type} (p : α → Bool) (l : List α) (c : α)
    (h : l.filter p = [c]) : l.find? p = some c := by
  induction l with
  | nil => simp at h
  | cons x xs ih =>
    by_cases hx : p x
    · rw [List.filter_cons, if_pos hx] at h
      injection h with h1 h2
      subst h1
      exact List.find?_cons_of_pos _ hx
    · rw [List.filter_cons, if_neg hx] at h
      rw [List.find?_cons_of_neg _ hx]
      exact ih h

theorem find?_eq_of_mem (l : List String) (a : String) (ha : a ∈ l) :
    l.find? (fun t => t = a) = some a := by
  induction l with
  | nil => cases ha
  | cons x xs ih =>
    by_cases hx : x = a
    · subst hx
      exact List.find?_cons_of_pos _ (by simp)
    · rw [List.find?_cons_of_neg _ (by simp [hx])]
      rcases List.mem_cons.mp ha with rfl | h2
      · exact absurd rfl hx
      · exact ih h2

/-- **C8**: for a package whose chunk list has exactly one chunk per
item type (pairwise distinct types), consolidating yields, for each
chunk's type, a group row with the same count and the group totals
recomputed as `count * unitVolume` and `count * unitValue`; the
function reads the package and builds a fresh row list, never
modifying the package itself. -/
theorem consolidate_preserves_consolidated (pkg : Package)
    (hnd : pkg.types.Pairwise fun a b => a.type ≠ b.type) :
    ∀ c ∈ pkg.types,
      (consolidate_package pkg).find? (fun r => r.type = c.type) =
        some { type := c.type, count := c.count, volume := c.volume, value := c.value,
               totalVolume := (c.count : ℚ) * c.volume,
               totalValue := (c.count : ℚ) * c.value } := by
  intro c hc
  unfold consolidate_package
  rw [List.find?_map]
  have hmem : c.type ∈ (pkg.types.map Chunk.type).dedup :=
    List.mem_dedup.mpr (List.mem_map_of_mem Chunk.type hc)
  have hfil : pkg.types.filter (fun x => x.type = c.type) = [c] :=
    filter_type_eq_of_pairwise pkg.types c hc hnd
  have hcomp : (((fun r : Chunk => r.type = c.type) : Chunk → Bool) ∘ fun t =>
      ({ type := t
         count := ((pkg.types.filter fun x => x.type = t).map Chunk.count).sum
         volume := (((pkg.types.filter fun x => x.type = t).head?).map Chunk.volume).getD 0
         value := (((pkg.types.filter fun x => x.type = t).head?).map Chunk.value).getD 0
         totalVolume := (((pkg.types.filter fun x => x.type = t).map Chunk.count).sum : ℚ) *
           ((((pkg.types.filter fun x => x.type = t).head?).map Chunk.volume).getD 0)
         totalValue := (((pkg.types.filter fun x => x.type = t).map Chunk.count).sum : ℚ) *
           ((((pkg.types.filter fun x => x.type = t).head?).map Chunk.value).getD 0) } : Chunk)) =
      fun t : String => (decide (t = c.type)) := rfl
  have hfind2 : pkg.types.find? (fun x => x.type = c.type) = some c :=
    find?_of_filter_singleton _ pkg.types c hfil
  rw [hcomp, find?_eq_of_mem _ _ hmem]
  simp [hfil, hfind2]

/-- Witness for C8: a package holding one chunk each of two distinct
types. -/
theorem consolidate_preserves_consolidated_witness :
    (consolidate_package
        { types := [chunkA, chunkB], total_volume := 400000, total_value := 0 }).find?
      (fun r => r.type = chunkA.type) =
      some { type := chunkA.type, count := chunkA.count, volume := chunkA.volume,
             value := chunkA.value, totalVolume := (chunkA.count : ℚ) * chunkA.volume,
             totalValue := (chunkA.count : ℚ) * chunkA.value } :=
  consolidate_preserves_consolidated
    { types := [chunkA, chunkB], total_volume := 400000, total_value := 0 }
    (by decide) chunkA (by decide)
